import Mathlib

/-
Verification of the binop-eq mutator of the mutagen mutation-testing engine
(src/mutagen-core/src/mutator/mutator_binop_eq.rs), shallowly embedded in Lean.

The source file defines:
  - `BinopEq` (the two family operators `==` and `!=`) and `BinopEq::eq`, the
    evaluation of an operator on a pair of operands of Rust types with
    `L: PartialEq<R>`;
  - `MutationBinopEq` with `possible_mutations`, `mutate` and `to_mutation`;
  - `MutatorBinopEq::run`, the runtime oracle called from instrumented code;
  - `MutatorBinopEq::transform`, the compile-time rewrite of a matched `==`/`!=`
    binary expression into a dispatch call to `run`;
  - the `Display` renderings of the operators.

Collaborators whose code is outside the embedded source file — the runtime
configuration (`MutagenRuntimeConfig` with `covered` and `get_mutation`), the
mutation registry (`SharedTransformInfo::add_mutations`), the metadata record
(`comm::Mutation`) and the transform context — are modelled from the spec; each
such definition says so in its doc comment.

Rust's interior mutability (the coverage map behind the shared runtime handle,
the registry behind `SharedTransformInfo`) is rendered as explicit state
passing: `run` returns the boolean together with the updated configuration, and
`transform` returns the rewritten node together with the updated registry.
A `PartialEq` instance is modelled as one boolean function `eqFn` for `==`;
Rust's `PartialEq` contract requires `a != b` if and only if `!(a == b)`
(the default `ne` the source relies on), so `!=` is its negation.
-/

namespace Mutagen

/-- Operators of the equality family (`enum BinopEq` in the source): `Eq` is the
original-language `==` and `Ne` is `!=`. -/
inductive BinopEq where
  | Eq : BinopEq
  | Ne : BinopEq
deriving DecidableEq

/-- Evaluation of a family operator on a pair of operands (`BinopEq::eq`):
`Eq` evaluates `left == right` and `Ne` evaluates `left != right`. The operand
types are abstracted by the `==` function `eqFn` of the `PartialEq` instance,
with `!=` its negation per the trait contract. -/
def BinopEq.eq {L R : Type} (op : BinopEq) (eqFn : L → R → Bool)
    (left : L) (right : R) : Bool :=
  match op with
  | BinopEq.Eq => eqFn left right
  | BinopEq.Ne => !(eqFn left right)

/-- Rendering of an operator (`impl fmt::Display for BinopEq`): `Eq` renders as
the token `"=="` and `Ne` as `"!="`. -/
def BinopEq.display : BinopEq → String
  | BinopEq.Eq => "=="
  | BinopEq.Ne => "!="

/-- A single candidate mutation (`struct MutationBinopEq`): the operator that
replaces the original one at the site. -/
structure MutationBinopEq where
  op : BinopEq
deriving DecidableEq

/-- Candidate mutations of an original operator
(`MutationBinopEq::possible_mutations`): the fixed variant list `[Eq, Ne]`
filtered to the operators different from the original, each wrapped as a
`MutationBinopEq`, in the variant order. -/
def MutationBinopEq.possible_mutations (original_op : BinopEq) :
    List MutationBinopEq :=
  (([BinopEq.Eq, BinopEq.Ne].filter (fun op => op != original_op)).map
    (fun op => { op := op }))

/-- Evaluation of a mutation on the operands (`MutationBinopEq::mutate`): the
replacement operator applied to the pair. -/
def MutationBinopEq.mutate {L R : Type} (m : MutationBinopEq)
    (eqFn : L → R → Bool) (left : L) (right : R) : Bool :=
  m.op.eq eqFn left right

/-- Modelled from the spec: `MutagenRuntimeConfig` (defined outside the embedded
source file) is the process-wide runtime state — either no mutation is active or
the mutation with one global identifier is active — together with the coverage
map the oracle writes. -/
structure MutagenRuntimeConfig where
  mutationId : Option Nat
  coverage : List Nat
deriving DecidableEq

/-- Modelled from the spec: `MutagenRuntimeConfig::covered` marks the identifier
as covered in the coverage map, unconditionally. -/
def MutagenRuntimeConfig.covered (rt : MutagenRuntimeConfig)
    (mutator_id : Nat) : MutagenRuntimeConfig :=
  { rt with coverage := mutator_id :: rt.coverage }

/-- Modelled from the spec: `MutagenRuntimeConfig::get_mutation` selects the
candidate addressed by the active identifier when that identifier lies in the
half-open block `[mutator_id, mutator_id + mutations.length)` of the call site
(offset addressing into the candidate list), and returns `none` otherwise — an
inactive configuration or an identifier belonging to some other site. -/
def MutagenRuntimeConfig.get_mutation (rt : MutagenRuntimeConfig)
    (mutator_id : Nat) (mutations : List MutationBinopEq) :
    Option MutationBinopEq :=
  match rt.mutationId with
  | Option.none => Option.none
  | Option.some n =>
    if mutator_id ≤ n ∧ n < mutator_id + mutations.length then
      mutations.get? (n - mutator_id)
    else
      Option.none

/-- The runtime oracle (`MutatorBinopEq::run`): marks the site covered, computes
the possible mutations of the original operator, and evaluates either the
mutation selected by the runtime configuration or, when none is selected, the
original operator. The coverage write is state-passed: the result is the
boolean together with the updated configuration. -/
def MutatorBinopEq.run {L R : Type} (eqFn : L → R → Bool) (mutator_id : Nat)
    (left : L) (right : R) (original_op : BinopEq)
    (runtime : MutagenRuntimeConfig) : Bool × MutagenRuntimeConfig :=
  let runtime := runtime.covered mutator_id
  let mutations := MutationBinopEq.possible_mutations original_op
  match runtime.get_mutation mutator_id mutations with
  | Option.some m => (m.mutate eqFn left right, runtime)
  | Option.none => (original_op.eq eqFn left right, runtime)

/-- Modelled from the spec: the `Mutation` metadata record (`comm::Mutation`,
outside the embedded source file), as built by `Mutation::new_spanned`:
enclosing function name, family tag, rendering of the original operator,
rendering of the mutated operator, and source position. Source spans are
abstracted as natural numbers. -/
structure Mutation where
  fn_name : String
  mutator : String
  original_code : String
  mutated_code : String
  span : Nat
deriving DecidableEq

/-- An operator together with the span of its source token
(`struct BinopEqSpanned`). -/
structure BinopEqSpanned where
  op : BinopEq
  span : Nat
deriving DecidableEq

/-- Rendering of a spanned operator (`impl fmt::Display for BinopEqSpanned`):
the rendering of its operator. -/
def BinopEqSpanned.display (s : BinopEqSpanned) : String :=
  s.op.display

/-- Modelled from the spec: the transform context (`TransformContext`, outside
the embedded source file) carries the enclosing function name. -/
structure TransformContext where
  fn_name : String
deriving DecidableEq

/-- Metadata record of one candidate (`MutationBinopEq::to_mutation`): the
enclosing function name, the family tag `"binop_eq"`, the rendering of the
original operator, the rendering of the candidate, and the original operator
token's source position. -/
def MutationBinopEq.to_mutation (m : MutationBinopEq)
    (original_op : BinopEqSpanned) (context : TransformContext) : Mutation :=
  { fn_name := context.fn_name
    mutator := "binop_eq"
    original_code := original_op.display
    mutated_code := m.op.display
    span := original_op.span }

/-- Modelled from the spec: the mutation registry (`SharedTransformInfo`,
outside the embedded source file) — a monotone process-wide identifier counter
and the registered records in registration order. -/
structure TransformInfo where
  next_id : Nat
  mutations : List Mutation
deriving DecidableEq

/-- Modelled from the spec: `add_mutations` reserves a contiguous identifier
block as long as the batch, appends the records in order, and returns the first
identifier of the block. -/
def TransformInfo.add_mutations (info : TransformInfo) (ms : List Mutation) :
    Nat × TransformInfo :=
  (info.next_id,
    { next_id := info.next_id + ms.length, mutations := info.mutations ++ ms })

/-- Shallow embedding of the `syn::BinOp` operator of a binary expression: the
two family operators `==` and `!=` carrying the span of their token, and every
other binary operator as an opaque tag with its span. -/
inductive BinOp where
  | eqOp (span : Nat) : BinOp
  | neOp (span : Nat) : BinOp
  | other (tag : Nat) (span : Nat) : BinOp
deriving DecidableEq

/-- Shallow embedding of the `syn::Expr` nodes the transform distinguishes:
binary expressions with their attributes (opaque tags), operands and operator;
every other expression kind as an opaque leaf; and the node shapes the rewrite
emits — a reference expression `&(e)` and the parsed dispatch call
`MutatorBinopEq::run(mutator_id, leftArg, rightArg, op, get_default())` with
its operand arguments in source order. -/
inductive Expr where
  | binary (attrs : List Nat) (left : Expr) (right : Expr) (op : BinOp) : Expr
  | nonBinary (tag : Nat) : Expr
  | ref (e : Expr) : Expr
  | runCall (mutator_id : Nat) (leftArg : Expr) (rightArg : Expr)
      (op : BinopEq) (span : Nat) : Expr
deriving DecidableEq

/-- Does the node match the family: a binary expression whose operator is `==`
or `!=`. -/
def Expr.matchesBinopEq : Expr → Bool
  | Expr.binary _ _ _ (BinOp.eqOp _) => true
  | Expr.binary _ _ _ (BinOp.neOp _) => true
  | _ => false

/-- The transform pass (`MutatorBinopEq::transform`): a binary node whose
operator is `==` or `!=` is rewritten — after registering one `Mutation` per
candidate of the original operator — into the dispatch call
`MutatorBinopEq::run(mutator_id, &(left), &(right), op, get_default())`,
spanned at the operator token; a binary node with any other operator is
reassembled unchanged, and any non-binary node is returned as is. The registry
update is state-passed through `TransformInfo`. -/
def MutatorBinopEq.transform (e : Expr) (transform_info : TransformInfo)
    (context : TransformContext) : Expr × TransformInfo :=
  match e with
  | Expr.binary attrs left right op =>
    match ((match op with
           | BinOp.eqOp t => Option.some { op := BinopEq.Eq, span := t }
           | BinOp.neOp t => Option.some { op := BinopEq.Ne, span := t }
           | _ => Option.none) : Option BinopEqSpanned) with
    | Option.none => (Expr.binary attrs left right op, transform_info)
    | Option.some opSp =>
      let p := transform_info.add_mutations
        ((MutationBinopEq.possible_mutations opSp.op).map
          (fun m => m.to_mutation opSp context))
      (Expr.runCall p.1 (Expr.ref left) (Expr.ref right) opSp.op opSp.span, p.2)
  | e => (e, transform_info)

/-- Operand-evaluation semantics used to state side-effect order: evaluates an
expression under a valuation `env` of the opaque leaves, threading the runtime
configuration, and returns the trace of opaque-leaf evaluations in order, the
resulting value, and the updated configuration. A reference `&(e)` evaluates
its operand once; a binary expression evaluates its left operand, then its
right operand, then combines the values (family operators compare for
equality; other operators combine through the interpretation `oth`); the
dispatch call evaluates its argument expressions in Rust's left-to-right
argument order — left reference, then right reference — and only then hands
the resulting values to the oracle `MutatorBinopEq.run`, whichever branch the
oracle takes. Values are natural numbers, booleans encoded as 1 and 0. -/
def Expr.evalSt (env : Nat → Nat) (oth : Nat → Nat → Nat → Nat)
    (rt : MutagenRuntimeConfig) :
    Expr → List Nat × Nat × MutagenRuntimeConfig
  | Expr.nonBinary tag => ([tag], env tag, rt)
  | Expr.ref e => Expr.evalSt env oth rt e
  | Expr.binary _ left right op =>
    let pl := Expr.evalSt env oth rt left
    let pr := Expr.evalSt env oth pl.2.2 right
    let v := match op with
      | BinOp.eqOp _ => if pl.2.1 = pr.2.1 then 1 else 0
      | BinOp.neOp _ => if pl.2.1 = pr.2.1 then 0 else 1
      | BinOp.other tag _ => oth tag pl.2.1 pr.2.1
    (pl.1 ++ pr.1, v, pr.2.2)
  | Expr.runCall mid leftArg rightArg op _ =>
    let pl := Expr.evalSt env oth rt leftArg
    let pr := Expr.evalSt env oth pl.2.2 rightArg
    let res := MutatorBinopEq.run (fun a b : Nat => a == b) mid pl.2.1 pr.2.1
      op pr.2.2
    (pl.1 ++ pr.1, if res.1 then 1 else 0, res.2)

/-- Claim C1 — identity under no mutation: for every comparison function of a
`PartialEq` instance, every pair of operands, every call-site identifier and
every original operator, `MutatorBinopEq.run` under a runtime configuration
with no active mutation returns exactly the original operator's direct
evaluation of the operands (`Eq` gives `l == r`, `Ne` gives `l != r`). -/
theorem run_identity_no_mutation {L R : Type} (eqFn : L → R → Bool)
    (mutator_id : Nat) (l : L) (r : R) (op : BinopEq)
    (rt : MutagenRuntimeConfig) (h : rt.mutationId = Option.none) :
    (MutatorBinopEq.run eqFn mutator_id l r op rt).1 = op.eq eqFn l r := by
  simp [MutatorBinopEq.run, MutagenRuntimeConfig.get_mutation,
    MutagenRuntimeConfig.covered, h]

/-- Witness for C1 at the source's `eq_inactive` test: identifier 1, operands
(5, 4), original operator `==`, inactive configuration. -/
theorem run_identity_no_mutation_witness :
    (MutagenRuntimeConfig.mk Option.none []).mutationId = Option.none
    ∧ (MutatorBinopEq.run (fun a b : Nat => a == b) 1 5 4 BinopEq.Eq
        (MutagenRuntimeConfig.mk Option.none [])).1
      = BinopEq.Eq.eq (fun a b : Nat => a == b) 5 4 :=
  ⟨rfl, run_identity_no_mutation _ 1 5 4 BinopEq.Eq _ rfl⟩

/-- Claim C2 — exact substitution under matching activation: when the active
mutation identifier equals the site's base identifier and the candidate list of
the original operator is the single mutation `m` (as it always is for this
two-member family), `MutatorBinopEq.run` returns the evaluation of that sole
candidate on the operands. -/
theorem run_exact_substitution {L R : Type} (eqFn : L → R → Bool)
    (mutator_id : Nat) (l : L) (r : R) (op : BinopEq)
    (rt : MutagenRuntimeConfig) (m : MutationBinopEq)
    (h : rt.mutationId = Option.some mutator_id)
    (hm : MutationBinopEq.possible_mutations op = [m]) :
    (MutatorBinopEq.run eqFn mutator_id l r op rt).1 = m.mutate eqFn l r := by
  simp [MutatorBinopEq.run, MutagenRuntimeConfig.get_mutation,
    MutagenRuntimeConfig.covered, h, hm, Nat.lt_succ_self, Nat.sub_self]

/-- Witness for C2 at the source's `eq_active` and `ne_active` tests:
identifier 1 active at site 1, operands (5, 4); with original `==` the result
is the sole candidate's evaluation, concretely `true`, and with original `!=`
it is concretely `false`. -/
theorem run_exact_substitution_witness :
    ((MutagenRuntimeConfig.mk (Option.some 1) []).mutationId = Option.some 1
      ∧ MutationBinopEq.possible_mutations BinopEq.Eq
          = [MutationBinopEq.mk BinopEq.Ne])
    ∧ (MutatorBinopEq.run (fun a b : Nat => a == b) 1 5 4 BinopEq.Eq
        (MutagenRuntimeConfig.mk (Option.some 1) [])).1
      = (MutationBinopEq.mk BinopEq.Ne).mutate (fun a b : Nat => a == b) 5 4
    ∧ (MutatorBinopEq.run (fun a b : Nat => a == b) 1 5 4 BinopEq.Eq
        (MutagenRuntimeConfig.mk (Option.some 1) [])).1 = true
    ∧ (MutatorBinopEq.run (fun a b : Nat => a == b) 1 5 4 BinopEq.Ne
        (MutagenRuntimeConfig.mk (Option.some 1) [])).1 = false :=
  ⟨⟨rfl, rfl⟩, run_exact_substitution _ 1 5 4 BinopEq.Eq _ _ rfl rfl,
    by decide, by decide⟩

/-- Claim C3 — fail-open on non-matching activation: when the active mutation
identifier lies outside the half-open block
`[mutator_id, mutator_id + candidates.length)` of the call site,
`MutatorBinopEq.run` returns the original operator's evaluation of the
operands; being a total function, it raises no error, so activating an
identifier belonging to a different site never changes this site's result. -/
theorem run_fail_open {L R : Type} (eqFn : L → R → Bool) (mutator_id : Nat)
    (l : L) (r : R) (op : BinopEq) (rt : MutagenRuntimeConfig) (n : Nat)
    (h : rt.mutationId = Option.some n)
    (hout : n < mutator_id
      ∨ mutator_id + (MutationBinopEq.possible_mutations op).length ≤ n) :
    (MutatorBinopEq.run eqFn mutator_id l r op rt).1 = op.eq eqFn l r := by
  have hcond : ¬ (mutator_id ≤ n
      ∧ n < mutator_id + (MutationBinopEq.possible_mutations op).length) := by
    rcases hout with h1 | h1
    · exact fun hc => absurd hc.1 (Nat.not_le_of_lt h1)
    · exact fun hc => absurd hc.2 (Nat.not_lt_of_le h1)
  simp [MutatorBinopEq.run, MutagenRuntimeConfig.get_mutation,
    MutagenRuntimeConfig.covered, h, hcond]

/-- Witness for C3 at the spec's scenario 5: site with base identifier 2,
active identifier 1 (belonging to another site), operands (5, 4), original
operator `==`; the site returns the original result. -/
theorem run_fail_open_witness :
    ((MutagenRuntimeConfig.mk (Option.some 1) []).mutationId = Option.some 1
      ∧ (1 < 2
        ∨ 2 + (MutationBinopEq.possible_mutations BinopEq.Eq).length ≤ 1))
    ∧ (MutatorBinopEq.run (fun a b : Nat => a == b) 2 5 4 BinopEq.Eq
        (MutagenRuntimeConfig.mk (Option.some 1) [])).1
      = BinopEq.Eq.eq (fun a b : Nat => a == b) 5 4 :=
  ⟨⟨rfl, Or.inl (by decide)⟩,
    run_fail_open _ 2 5 4 BinopEq.Eq _ 1 rfl (Or.inl (by decide))⟩

/-- Claim C4 — candidate completeness and exclusivity: for each original
operator of the two-member family, `possible_mutations` has length
`|variants| - 1 = 1` and never contains the original operator; concretely the
candidates of `==` are exactly `[!=]` and the candidates of `!=` are exactly
`[==]`, i.e. the variant order with the original removed. -/
theorem possible_mutations_complete_exclusive :
    (∀ op : BinopEq,
      (MutationBinopEq.possible_mutations op).length
          = [BinopEq.Eq, BinopEq.Ne].length - 1
        ∧ MutationBinopEq.mk op ∉ MutationBinopEq.possible_mutations op)
    ∧ MutationBinopEq.possible_mutations BinopEq.Eq
        = [MutationBinopEq.mk BinopEq.Ne]
    ∧ MutationBinopEq.possible_mutations BinopEq.Ne
        = [MutationBinopEq.mk BinopEq.Eq] := by
  refine ⟨fun op => ?_, rfl, rfl⟩
  cases op <;> exact ⟨rfl, by decide⟩

/-- Claim C5 — `!=` is the logical negation of `==`: for every comparison
function of a `PartialEq` instance and every pair of operands, `BinopEq.eq`
with operator `Ne` equals the boolean negation of `BinopEq.eq` with
operator `Eq`. -/
theorem ne_is_negation_of_eq {L R : Type} (eqFn : L → R → Bool)
    (l : L) (r : R) :
    BinopEq.Ne.eq eqFn l r = !(BinopEq.Eq.eq eqFn l r) :=
  rfl

/-- Claim C6 — unconditional coverage marking: after every call to
`MutatorBinopEq.run`, for every runtime configuration (so regardless of whether
and which mutation is active, hence of which branch was taken), the site's
identifier is recorded in the coverage map of the returned configuration. -/
theorem run_marks_coverage {L R : Type} (eqFn : L → R → Bool)
    (mutator_id : Nat) (l : L) (r : R) (op : BinopEq)
    (rt : MutagenRuntimeConfig) :
    mutator_id ∈ (MutatorBinopEq.run eqFn mutator_id l r op rt).2.coverage := by
  have h2 : (MutatorBinopEq.run eqFn mutator_id l r op rt).2
      = rt.covered mutator_id := by
    simp only [MutatorBinopEq.run]
    cases (MutagenRuntimeConfig.covered rt mutator_id).get_mutation mutator_id
        (MutationBinopEq.possible_mutations op) <;> rfl
  rw [h2]
  exact List.mem_cons_self _ _

/-- Claim C7 — identity transform on non-matching nodes: every expression that
is not a binary node with operator `==` or `!=` (non-binary expressions and
binary expressions with any other operator) is returned unchanged by
`MutatorBinopEq.transform`, with the registry untouched. -/
theorem transform_identity_nonmatching (e : Expr) (info : TransformInfo)
    (context : TransformContext) (h : e.matchesBinopEq = false) :
    MutatorBinopEq.transform e info context = (e, info) := by
  cases e with
  | binary attrs left right op =>
    cases op with
    | eqOp t => simp [Expr.matchesBinopEq] at h
    | neOp t => simp [Expr.matchesBinopEq] at h
    | other tag t => rfl
  | nonBinary tag => rfl
  | ref e => rfl
  | runCall a b c d s => rfl

/-- Witness for C7: a non-binary node and a binary node with a non-family
operator both pass through the transform unchanged. -/
theorem transform_identity_nonmatching_witness :
    (Expr.nonBinary 0).matchesBinopEq = false
    ∧ MutatorBinopEq.transform (Expr.nonBinary 0) (TransformInfo.mk 0 [])
        (TransformContext.mk "f")
      = (Expr.nonBinary 0, TransformInfo.mk 0 []) :=
  ⟨rfl, transform_identity_nonmatching _ _ _ rfl⟩

/-- Claim C8 — metadata record shape and renderings: transforming a matched
binary node registers exactly one `Mutation` record per candidate, appended in
candidate order, carrying the enclosing function name, the family tag
`"binop_eq"`, the rendering of the original operator, the rendering of the
candidate, and the operator token's source position; the rendering of `Eq` is
`"=="` and the rendering of `Ne` is `"!="`. -/
theorem transform_metadata_records (attrs : List Nat) (l r : Expr)
    (span : Nat) (info : TransformInfo) (context : TransformContext) :
    ((MutatorBinopEq.transform (Expr.binary attrs l r (BinOp.eqOp span))
        info context).2.mutations
      = info.mutations
        ++ [Mutation.mk context.fn_name "binop_eq" "==" "!=" span])
    ∧ ((MutatorBinopEq.transform (Expr.binary attrs l r (BinOp.neOp span))
        info context).2.mutations
      = info.mutations
        ++ [Mutation.mk context.fn_name "binop_eq" "!=" "==" span])
    ∧ BinopEq.Eq.display = "==" ∧ BinopEq.Ne.display = "!=" :=
  ⟨rfl, rfl, rfl, rfl⟩

/-- Claim C9 — operand evaluation order and count preserved: for a matched
`==` or `!=` node, under every leaf valuation, every interpretation of the
other operators and every runtime configuration — active or not — the
operand-evaluation trace of the dispatch expression the transform emits equals
the trace of the original expression, namely the trace of the left operand
followed by the trace of the right operand, each evaluated exactly once. -/
theorem transform_preserves_operand_order (env : Nat → Nat)
    (oth : Nat → Nat → Nat → Nat) (rt : MutagenRuntimeConfig)
    (attrs : List Nat) (l r : Expr) (op : BinOp) (span : Nat)
    (info : TransformInfo) (context : TransformContext)
    (h : op = BinOp.eqOp span ∨ op = BinOp.neOp span) :
    (Expr.evalSt env oth rt
        (MutatorBinopEq.transform (Expr.binary attrs l r op) info context).1).1
      = (Expr.evalSt env oth rt (Expr.binary attrs l r op)).1
    ∧ (Expr.evalSt env oth rt
        (MutatorBinopEq.transform (Expr.binary attrs l r op) info context).1).1
      = (Expr.evalSt env oth rt l).1
        ++ (Expr.evalSt env oth (Expr.evalSt env oth rt l).2.2 r).1 := by
  rcases h with h | h <;> subst h <;> exact ⟨rfl, rfl⟩

/-- Witness for C9: a matched `==` node over two effectful leaves, inactive
configuration; the emitted dispatch evaluates the leaves exactly as the
original did. -/
theorem transform_preserves_operand_order_witness :
    (BinOp.eqOp 0 = BinOp.eqOp 0 ∨ BinOp.eqOp 0 = BinOp.neOp 0)
    ∧ ((Expr.evalSt (fun t => t) (fun _ a b => a + b)
          (MutagenRuntimeConfig.mk Option.none [])
          (MutatorBinopEq.transform
            (Expr.binary [] (Expr.nonBinary 10) (Expr.nonBinary 20)
              (BinOp.eqOp 0))
            (TransformInfo.mk 0 []) (TransformContext.mk "f")).1).1
        = (Expr.evalSt (fun t => t) (fun _ a b => a + b)
            (MutagenRuntimeConfig.mk Option.none [])
            (Expr.binary [] (Expr.nonBinary 10) (Expr.nonBinary 20)
              (BinOp.eqOp 0))).1
      ∧ (Expr.evalSt (fun t => t) (fun _ a b => a + b)
          (MutagenRuntimeConfig.mk Option.none [])
          (MutatorBinopEq.transform
            (Expr.binary [] (Expr.nonBinary 10) (Expr.nonBinary 20)
              (BinOp.eqOp 0))
            (TransformInfo.mk 0 []) (TransformContext.mk "f")).1).1
        = (Expr.evalSt (fun t => t) (fun _ a b => a + b)
            (MutagenRuntimeConfig.mk Option.none []) (Expr.nonBinary 10)).1
          ++ (Expr.evalSt (fun t => t) (fun _ a b => a + b)
              (Expr.evalSt (fun t => t) (fun _ a b => a + b)
                (MutagenRuntimeConfig.mk Option.none [])
                (Expr.nonBinary 10)).2.2 (Expr.nonBinary 20)).1) :=
  ⟨Or.inl rfl,
    transform_preserves_operand_order (fun t => t) (fun _ a b => a + b)
      (MutagenRuntimeConfig.mk Option.none []) [] (Expr.nonBinary 10)
      (Expr.nonBinary 20) (BinOp.eqOp 0) 0 (TransformInfo.mk 0 [])
      (TransformContext.mk "f") (Or.inl rfl)⟩

/-- Claim C10 — candidate involution: for each operator of the family,
`possible_mutations` yields exactly one mutation, and `possible_mutations` of
that mutation's operator yields exactly one mutation whose operator is the
original: taking the sole candidate twice returns to the starting operator. -/
theorem possible_mutations_involution :
    ∀ op : BinopEq, ∃ m : MutationBinopEq,
      MutationBinopEq.possible_mutations op = [m]
      ∧ MutationBinopEq.possible_mutations m.op = [MutationBinopEq.mk op] := by
  intro op
  cases op with
  | Eq => exact ⟨MutationBinopEq.mk BinopEq.Ne, rfl, rfl⟩
  | Ne => exact ⟨MutationBinopEq.mk BinopEq.Eq, rfl, rfl⟩

end Mutagen
